import Mathlib

/-! Concert ticketing storefront: cart, checkout and concert filter.

A shallow embedding of `src/App.jsx`.  React state is passed explicitly:
every `setCart (prev => ...)` updater becomes a function from the previous
cart to the next one.  JavaScript numbers that hold prices, inventories and
quantities are modelled as `Int`.  A property access on `undefined`
(`byId.ticketCategory[id].inventory` for an id that is not in the table)
throws a `TypeError` in the source; here such a computation returns `none`.
Ids are assumed not to collide with property names of `Object.prototype`.
-/

namespace ConcertTickets

/-! ## Data model (the JSDoc typedefs) -/

/-- The `TicketCategory` typedef: `{ id, concertId, name, price, inventory }`. -/
structure TicketCategory where
  id : String
  concertId : String
  name : String
  price : Int
  inventory : Int
deriving DecidableEq, Repr

/-- A cart entry `{categoryId, qty}` (the comment on `useState([])`). -/
structure CartLine where
  categoryId : String
  qty : Int
deriving DecidableEq, Repr

/-- The `cart` state: a JavaScript array of cart entries. -/
abbrev Cart := List CartLine

/-- What `Object.fromEntries(xs.map((x) => [x.id, x]))[id]` leaves: the LAST
entry whose key is `id`, or `none` (JavaScript `undefined`) when there is none. -/
def fromEntries {α : Type} (key : α → String) : List α → String → Option α
  | [], _ => none
  | x :: xs, id =>
    match fromEntries key xs id with
    | some y => some y
    | none => if key x = id then some x else none

/-- The table `byId.ticketCategory`. -/
def byIdTicketCategory (ticketCategories : List TicketCategory) (id : String) :
    Option TicketCategory :=
  fromEntries TicketCategory.id ticketCategories id

/-! ## Seed data -/

/-- The list `seed.ticketCategories`. -/
def seed.ticketCategories : List TicketCategory :=
  [ { id := "tc1", concertId := "c1", name := "VIP Pit", price := 169, inventory := 25 },
    { id := "tc2", concertId := "c1", name := "Floor GA", price := 95, inventory := 260 },
    { id := "tc3", concertId := "c1", name := "Balcony", price := 65, inventory := 180 },
    { id := "tc4", concertId := "c2", name := "Gold", price := 145, inventory := 120 },
    { id := "tc5", concertId := "c2", name := "Silver", price := 85, inventory := 350 },
    { id := "tc6", concertId := "c3", name := "Orchestra", price := 120, inventory := 200 },
    { id := "tc7", concertId := "c3", name := "Mezzanine", price := 75, inventory := 180 } ]

/-! ## Cart operations -/

/-- The updater of `addToCart(categoryId, qty)`:
`i = prev.findIndex(p => p.categoryId === categoryId)`,
`max = byId.ticketCategory[categoryId].inventory` (throws for an unknown id),
then either entry `i` gets `qty: Math.min(next[i].qty + qty, max)` or
`{categoryId, qty}` is appended. -/
def addToCart (ticketCategories : List TicketCategory) (prev : Cart)
    (categoryId : String) (qty : Int) : Option Cart :=
  let i := prev.findIdx? (fun p => p.categoryId = categoryId)
  match byIdTicketCategory ticketCategories categoryId with
  | none => none
  | some cat =>
    let max := cat.inventory
    match i with
    | some i =>
      some (prev.modify (fun it => { it with qty := min (it.qty + qty) max }) i)
    | none => some (prev ++ [{ categoryId := categoryId, qty := qty }])

/-- The call `addToCart(tc.id)` of the Add button: `qty` takes its default `1`. -/
def addToCartDefault (ticketCategories : List TicketCategory) (prev : Cart)
    (categoryId : String) : Option Cart :=
  addToCart ticketCategories prev categoryId 1

/-- The updater of `updateQty(categoryId, qty)`:
`prev.map(it => it.categoryId === categoryId ? {...it, qty} : it)`. -/
def updateQty (prev : Cart) (categoryId : String) (qty : Int) : Cart :=
  prev.map (fun it => if it.categoryId = categoryId then { it with qty := qty } else it)

/-- The updater of `removeFromCart(categoryId)`:
`prev.filter(it => it.categoryId !== categoryId)`. -/
def removeFromCart (prev : Cart) (categoryId : String) : Cart :=
  prev.filter (fun it => it.categoryId ≠ categoryId)

/-- A call of one of the three cart functions. -/
inductive CartOp where
  | add (categoryId : String) (qty : Int)
  | setQty (categoryId : String) (qty : Int)
  | remove (categoryId : String)
deriving DecidableEq, Repr

/-- One call applied to the cart state. -/
def applyOp (ticketCategories : List TicketCategory) (cart : Cart) : CartOp → Option Cart
  | .add c q => addToCart ticketCategories cart c q
  | .setQty c q => some (updateQty cart c q)
  | .remove c => some (removeFromCart cart c)

/-- A finite sequence of calls, left to right; a thrown `TypeError` ends the run. -/
def runOps (ticketCategories : List TicketCategory) : Cart → List CartOp → Option Cart
  | cart, [] => some cart
  | cart, op :: ops =>
    match applyOp ticketCategories cart op with
    | none => none
    | some next => runOps ticketCategories next ops

/-- True for the calls of `addToCart` and `updateQty`. -/
def CartOp.isAddOrSet : CartOp → Bool
  | .add _ _ => true
  | .setQty _ _ => true
  | .remove _ => false

/-- The bound `1 ≤ qty ≤ inventory` for one line, the inventory read from the table. -/
def LineInBounds (ticketCategories : List TicketCategory) (line : CartLine) : Prop :=
  ∃ cat, byIdTicketCategory ticketCategories line.categoryId = some cat ∧
    1 ≤ line.qty ∧ line.qty ≤ cat.inventory

/-- Every line of the cart is within `1 ≤ qty ≤ inventory`. -/
def CartInBounds (ticketCategories : List TicketCategory) (cart : Cart) : Prop :=
  ∀ line ∈ cart, LineInBounds ticketCategories line

/-- The quantity argument of a call lies in `[1, inventory]` of the call's category. -/
def CartOp.ArgInRange (ticketCategories : List TicketCategory) : CartOp → Prop
  | .add c q => ∃ cat, byIdTicketCategory ticketCategories c = some cat ∧
      1 ≤ q ∧ q ≤ cat.inventory
  | .setQty c q => ∃ cat, byIdTicketCategory ticketCategories c = some cat ∧
      1 ≤ q ∧ q ≤ cat.inventory
  | .remove _ => True

/-- The `onChange` handler of the Qty input drawn for the cart line `it`:
`cat = byId.ticketCategory[it.categoryId]` (taken while rendering the line) and
`updateQty(it.categoryId, Math.max(1, Math.min(cat.inventory, Number(e.target.value))))`.
The typed number `Number(e.target.value)` is the integer `n`. -/
def qtyOnChange (ticketCategories : List TicketCategory) (cart : Cart) (it : CartLine)
    (n : Int) : Option Cart :=
  match byIdTicketCategory ticketCategories it.categoryId with
  | none => none
  | some cat => some (updateQty cart it.categoryId (max 1 (min cat.inventory n)))

/-- The constant `cartTotal`:
`cart.reduce((sum, it) => sum + it.qty * byId.ticketCategory[it.categoryId].price, 0)`;
an id that does not resolve throws. -/
def cartTotal (ticketCategories : List TicketCategory) (cart : Cart) : Option Int :=
  cart.foldlM
    (fun sum it =>
      (byIdTicketCategory ticketCategories it.categoryId).map
        (fun cat => sum + it.qty * cat.price))
    0

/-- The line total shown in the cart drawer, `it.qty * cat.price` with
`cat = byId.ticketCategory[it.categoryId]`. -/
def lineTotal (ticketCategories : List TicketCategory) (it : CartLine) : Option Int :=
  (byIdTicketCategory ticketCategories it.categoryId).map (fun cat => it.qty * cat.price)

/-! ## Checkout -/

/-- The `useState` cells of `App`. -/
structure AppState where
  q : String
  genre : String
  venue : String
  cartOpen : Bool
  checkoutOpen : Bool
  cart : Cart
deriving DecidableEq, Repr

/-- The initial values of the `useState` cells. -/
def AppState.initial : AppState :=
  { q := "", genre := "all", venue := "all", cartOpen := false, checkoutOpen := false,
    cart := [] }

/-- Everything a click handler of `App` could write: the module-level table
`seed.ticketCategories` and the React state. -/
structure Store where
  ticketCategories : List TicketCategory
  app : AppState
deriving DecidableEq, Repr

/-- The `onClick` of the Place Order button:
`setCheckoutOpen(false); setCartOpen(false); setCart([])`, and nothing else. -/
def placeOrder (w : Store) : Store :=
  { w with app := { w.app with checkoutOpen := false, cartOpen := false, cart := [] } }

/-- An entry `{categoryId, qty, unitPrice}` of the `items` of an `Order`. -/
structure OrderItem where
  categoryId : String
  qty : Int
  unitPrice : Int
deriving DecidableEq, Repr

/-- The `Order` typedef.  The `createdAt` field, computed from `new Date()` and
read only for display, is left out. -/
structure Order where
  id : String
  customerId : String
  total : Int
  items : List OrderItem
deriving DecidableEq, Repr

/-- The constant `orders` of `AdminBoards`: the only `Order` values of the
program, a fixed list that no handler writes. -/
def AdminBoards.orders : List Order :=
  [ { id := "o1", customerId := "cu1", total := 230, items := [⟨"tc2", 2, 95⟩] },
    { id := "o2", customerId := "cu2", total := 120, items := [⟨"tc6", 1, 120⟩] } ]

/-- The inventory effect the specification gives to a successful `commit`:
every category referenced by a cart line has its inventory decreased by the
line's quantity. -/
def InventoryDecremented (before after : Store) : Prop :=
  ∀ line ∈ before.app.cart, ∃ b a,
    byIdTicketCategory before.ticketCategories line.categoryId = some b ∧
    byIdTicketCategory after.ticketCategories line.categoryId = some a ∧
    a.inventory = b.inventory - line.qty

/-- The checkout example of the specification: the seed table (`tc2` has price 95
and inventory 260), the cart `[{tc2, qty 2}]`, drawer and checkout modal open. -/
def checkoutExample : Store :=
  { ticketCategories := seed.ticketCategories,
    app := { AppState.initial with
      cartOpen := true, checkoutOpen := true, cart := [⟨"tc2", 2⟩] } }

/-- The rejection example of the specification: as `checkoutExample`, with the
inventory of `tc2` reduced to 1. -/
def oversoldExample : Store :=
  { ticketCategories :=
      [{ id := "tc2", concertId := "c1", name := "Floor GA", price := 95, inventory := 1 }],
    app := { AppState.initial with
      cartOpen := true, checkoutOpen := true, cart := [⟨"tc2", 2⟩] } }

/-! ## The concert filter -/

/-- The `Artist` typedef. -/
structure Artist where
  id : String
  name : String
  genres : List String
deriving DecidableEq, Repr

/-- The `Venue` typedef. -/
structure Venue where
  id : String
  name : String
  city : String
  capacity : Int
deriving DecidableEq, Repr

/-- An entry `{artistId, roleId}` of a concert lineup. -/
structure LineupEntry where
  artistId : String
  roleId : String
deriving DecidableEq, Repr

/-- The `Concert` typedef.  The `date` field, computed from `Date.now()` and read
only for display, is left out. -/
structure Concert where
  id : String
  title : String
  venueId : String
  groupId : Option String
  lineup : List LineupEntry
  ticketCategoryIds : List String
deriving DecidableEq, Repr

/-- The list `seed.artists`. -/
def seed.artists : List Artist :=
  [ { id := "a1", name := "Neon Dunes", genres := ["g2", "g3"] },
    { id := "a2", name := "Aurora Vale", genres := ["g1"] },
    { id := "a3", name := "Metro Echo", genres := ["g3"] },
    { id := "a4", name := "Civic Symphony", genres := ["g4"] } ]

/-- The list `seed.venues`. -/
def seed.venues : List Venue :=
  [ { id := "v1", name := "Harbor Pavilion", city := "Brooklyn, NY", capacity := 8500 },
    { id := "v2", name := "Cedar Hall", city := "Boston, MA", capacity := 2200 },
    { id := "v3", name := "Skyline Bowl", city := "Chicago, IL", capacity := 12000 } ]

/-- The list `seed.concerts`. -/
def seed.concerts : List Concert :=
  [ { id := "c1", title := "Neon Dunes: Live at the Harbor", venueId := "v1",
      groupId := some "cg1",
      lineup := [⟨"a1", "r1"⟩, ⟨"a3", "r2"⟩],
      ticketCategoryIds := ["tc1", "tc2", "tc3"] },
    { id := "c2", title := "Aurora Vale: Moonlight Tour", venueId := "v3",
      groupId := none,
      lineup := [⟨"a2", "r1"⟩, ⟨"a3", "r3"⟩],
      ticketCategoryIds := ["tc4", "tc5"] },
    { id := "c3", title := "Civic Symphony plays Beethoven 7", venueId := "v2",
      groupId := some "cg2",
      lineup := [⟨"a4", "r4"⟩],
      ticketCategoryIds := ["tc6", "tc7"] } ]

/-- The table `byId.venue`. -/
def byIdVenue (venues : List Venue) (id : String) : Option Venue :=
  fromEntries Venue.id venues id

/-- JavaScript `text.includes(search)` on strings: `search` occurs in `text` as a
contiguous run of characters. -/
def includes (text search : String) : Bool :=
  text.data.tails.any (fun rest => search.data.isPrefixOf rest)

/-- JavaScript `toLowerCase` on text made of ASCII characters: `A`-`Z` go to
`a`-`z` and every other character stays.  The filter itself takes the
lower-casing function as the argument `lower`; this is the instance used on the
seed data, which is ASCII. -/
def asciiLower (s : String) : String :=
  String.mk (s.data.map Char.toLower)

/-- The constant `textOk` of the filter callback:
`text = (c.title + " " + byId.venue[c.venueId].name).toLowerCase()`,
`textOk = text.includes(q.toLowerCase())`; an unresolved `venueId` throws. -/
def textOk (lower : String → String) (venues : List Venue) (c : Concert) (q : String) :
    Option Bool :=
  match byIdVenue venues c.venueId with
  | none => none
  | some v =>
    let text := lower (c.title ++ " " ++ v.name)
    some (includes text (lower q))

/-- The constant `genreOk` of the filter callback: `genre === "all" ||
c.lineup.some(li => seed.artists.find(a => a.id === li.artistId)?.genres.includes(genre))`. -/
def genreOk (artists : List Artist) (c : Concert) (genre : String) : Bool :=
  genre = "all" ||
    c.lineup.any (fun li =>
      match artists.find? (fun a => a.id = li.artistId) with
      | some a => a.genres.contains genre
      | none => false)

/-- The constant `venueOk` of the filter callback:
`venue === "all" || c.venueId === venue`. -/
def venueOk (c : Concert) (venue : String) : Bool :=
  venue = "all" || c.venueId = venue

/-- The callback passed to `seed.concerts.filter`: `textOk && genreOk && venueOk`,
where computing `textOk` comes first and may throw. -/
def filterCallback (lower : String → String) (artists : List Artist) (venues : List Venue)
    (q genre venue : String) (c : Concert) : Option Bool :=
  match textOk lower venues c q with
  | none => none
  | some t => some (t && genreOk artists c genre && venueOk c venue)

/-- JavaScript `xs.filter(f)` for a callback that may throw: the callback runs
on every element in order, and one throw aborts the whole call. -/
def filterThrowing {α : Type} (f : α → Option Bool) : List α → Option (List α)
  | [] => some []
  | x :: xs =>
    match f x with
    | none => none
    | some keep =>
      match filterThrowing f xs with
      | none => none
      | some rest => some (if keep then x :: rest else rest)

/-- The memoised list `concerts` of `App`: the filter over the concert list for
the search text `q` and the selections `genre` and `venue`. -/
def concerts (lower : String → String) (artists : List Artist) (venues : List Venue)
    (all : List Concert) (q genre venue : String) : Option (List Concert) :=
  filterThrowing (filterCallback lower artists venues q genre venue) all

/-- The text predicate in logical form: the concert's venue resolves and the
lower-cased query occurs in the lower-cased `title + " " + venue name`. -/
def TextMatches (lower : String → String) (venues : List Venue) (q : String)
    (c : Concert) : Prop :=
  ∃ v, byIdVenue venues c.venueId = some v ∧
    (lower q).data <:+: (lower (c.title ++ " " ++ v.name)).data

/-- The genre predicate in logical form: the selection is `"all"`, or some lineup
entry's artist (the first artist of the list with the entry's id) has the genre
in its genre list. -/
def GenreMatches (artists : List Artist) (genre : String) (c : Concert) : Prop :=
  genre = "all" ∨
    ∃ li ∈ c.lineup, ∃ a, artists.find? (fun a => a.id = li.artistId) = some a ∧
      genre ∈ a.genres

/-- The venue predicate in logical form: the selection is `"all"` or equals the
concert's `venueId`. -/
def VenueMatches (venue : String) (c : Concert) : Prop :=
  venue = "all" ∨ c.venueId = venue

/-! ## The steps the page offers -/

/-- A user action on the cart: the Add button of the ticket category drawn for
the id `categoryId` on a concert card, an edit of the Qty input of the cart
line for `categoryId` to the number `n`, or the Remove button of that line. -/
inductive UiStep where
  | add (categoryId : String)
  | qtyEdit (categoryId : String) (n : Int)
  | remove (categoryId : String)
deriving DecidableEq, Repr

/-- The Add button of `ConcertCard` for the id `id` of `c.ticketCategoryIds`:
`tc = byId.ticketCategory[id]` (drawing the row reads `tc.id`, which throws for
an unresolved id), `disabled={tc.inventory === 0}`, `onClick={() => addToCart(tc.id)}`.
A click on a disabled button leaves the cart as it is. -/
def addButtonClick (ticketCategories : List TicketCategory) (cart : Cart) (id : String) :
    Option Cart :=
  match byIdTicketCategory ticketCategories id with
  | none => none
  | some tc =>
    if tc.inventory = 0 then some cart
    else addToCartDefault ticketCategories cart tc.id

/-- One user action applied to the cart.  The Qty input and the Remove button
exist once per cart line (`cart.map((it) => ...)`); an action on a category that
has no line finds no control and leaves the cart as it is. -/
def uiStep (ticketCategories : List TicketCategory) (cart : Cart) : UiStep → Option Cart
  | .add id => addButtonClick ticketCategories cart id
  | .qtyEdit c n =>
    match cart.find? (fun it => it.categoryId = c) with
    | none => some cart
    | some it => qtyOnChange ticketCategories cart it n
  | .remove c =>
    match cart.find? (fun it => it.categoryId = c) with
    | none => some cart
    | some it => some (removeFromCart cart it.categoryId)

/-- A finite sequence of user actions, left to right; a thrown `TypeError` ends
the run. -/
def runUi (ticketCategories : List TicketCategory) : Cart → List UiStep → Option Cart
  | cart, [] => some cart
  | cart, step :: steps =>
    match uiStep ticketCategories cart step with
    | none => none
    | some next => runUi ticketCategories next steps

/-! ## Calls that keep the quantity bound -/

/-- Whether a call keeps the quantity bound at the cart it is applied to.
`addToCart(c, qty)`: `c` resolves, and either the cart has a line for `c`, of
quantity `q` (the first one), with `1 ≤ q + qty`, or it has none and
`1 ≤ qty ≤ inventory`.  `updateQty(c, qty)`: the cart has no line for `c`, or
`c` resolves and `1 ≤ qty ≤ inventory`.  `removeFromCart`: always. -/
def CartOp.admissible (ticketCategories : List TicketCategory) (cart : Cart) : CartOp → Bool
  | .add c qty =>
    match byIdTicketCategory ticketCategories c with
    | none => false
    | some cat =>
      match cart.find? (fun it => it.categoryId = c) with
      | some line => decide (1 ≤ line.qty + qty)
      | none => decide (1 ≤ qty ∧ qty ≤ cat.inventory)
  | .setQty c qty =>
    match cart.find? (fun it => it.categoryId = c) with
    | none => true
    | some _ =>
      match byIdTicketCategory ticketCategories c with
      | none => false
      | some cat => decide (1 ≤ qty ∧ qty ≤ cat.inventory)
  | .remove _ => true

/-- Whether every call of a sequence is admissible at the cart it is applied to,
the sequence run from `cart`. -/
def opsAdmissible (ticketCategories : List TicketCategory) : Cart → List CartOp → Bool
  | _, [] => true
  | cart, op :: ops =>
    op.admissible ticketCategories cart &&
      match applyOp ticketCategories cart op with
      | none => true
      | some next => opsAdmissible ticketCategories next ops

/-! ## The cart contract as the specification words it

These definitions follow the sentences of the specification (section 4.3), not
the source; they are what the source functions are compared with. -/

/-- The error kinds named by the specification for cart operations. -/
inductive CartError where
  | notFound
  | validationError
deriving DecidableEq, Repr

/-- The specification's `clamp(x, lo, hi)`. -/
def clamp (x lo hi : Int) : Int := min hi (max lo x)

/-- The specification's `addLine(categoryId, delta)`: an absent line is inserted
with `clamp(delta, 1, inventory)`, a present one becomes
`min(current + delta, inventory)`, and a result below 1 is a `ValidationError`. -/
def addLineSpec (ticketCategories : List TicketCategory) (cart : Cart)
    (categoryId : String) (delta : Int) : Except CartError Cart :=
  match byIdTicketCategory ticketCategories categoryId with
  | none => .error .notFound
  | some cat =>
    match cart.find? (fun it => it.categoryId = categoryId) with
    | none =>
      let q := clamp delta 1 cat.inventory
      if q < 1 then .error .validationError
      else .ok (cart ++ [{ categoryId := categoryId, qty := q }])
    | some line =>
      let q := min (line.qty + delta) cat.inventory
      if q < 1 then .error .validationError
      else .ok (cart.map
        (fun it => if it.categoryId = categoryId then { it with qty := q } else it))

/-- The specification's `setQuantity(categoryId, qty)`: `NotFound` without a
line, `ValidationError` for `qty < 1`, otherwise the line gets
`min(qty, inventory)`. -/
def setQuantitySpec (ticketCategories : List TicketCategory) (cart : Cart)
    (categoryId : String) (qty : Int) : Except CartError Cart :=
  match byIdTicketCategory ticketCategories categoryId with
  | none => .error .notFound
  | some cat =>
    if cart.any (fun it => it.categoryId = categoryId) then
      if qty < 1 then .error .validationError
      else .ok (cart.map (fun it =>
        if it.categoryId = categoryId then { it with qty := min qty cat.inventory } else it))
    else .error .notFound

/-! ## Lemmas on the table lookup and the cart operations -/

theorem fromEntries_key {α : Type} (key : α → String) (xs : List α) (id : String) (x : α)
    (h : fromEntries key xs id = some x) : key x = id := by
  induction xs with
  | nil => simp [fromEntries] at h
  | cons y ys ih =>
    simp only [fromEntries] at h
    cases hys : fromEntries key ys id with
    | some z =>
      rw [hys] at h
      cases h
      exact ih hys
    | none =>
      rw [hys] at h
      by_cases hk : key y = id
      · simp [hk] at h
        subst h
        exact hk
      · simp [hk] at h

theorem addToCart_nil (tcs : List TicketCategory) (c : String) (q : Int) :
    addToCart tcs [] c q =
      (byIdTicketCategory tcs c).map (fun _ => [{ categoryId := c, qty := q }]) := by
  unfold addToCart
  cases byIdTicketCategory tcs c <;> simp

theorem addToCart_cons (tcs : List TicketCategory) (x : CartLine) (xs : Cart)
    (c : String) (q : Int) :
    addToCart tcs (x :: xs) c q =
      match byIdTicketCategory tcs c with
      | none => none
      | some cat =>
        if x.categoryId = c then
          some ({ x with qty := min (x.qty + q) cat.inventory } :: xs)
        else (addToCart tcs xs c q).map (fun r => x :: r) := by
  unfold addToCart
  cases hc : byIdTicketCategory tcs c with
  | none => rfl
  | some cat =>
    by_cases hx : x.categoryId = c
    · simp [List.findIdx?_cons, hx]
    · simp only [List.findIdx?_cons, hx, decide_False, Bool.false_eq_true, if_false,
        List.findIdx?_succ]
      cases hi : List.findIdx? (fun p => decide (p.categoryId = c)) xs with
      | none => simp
      | some i => simp

theorem addToCart_absent (tcs : List TicketCategory) (cart : Cart) (c : String) (q : Int)
    (cat : TicketCategory) (hc : byIdTicketCategory tcs c = some cat)
    (habs : ∀ l ∈ cart, l.categoryId ≠ c) :
    addToCart tcs cart c q = some (cart ++ [{ categoryId := c, qty := q }]) := by
  induction cart with
  | nil => simp [addToCart_nil, hc]
  | cons x xs ih =>
    have hx : x.categoryId ≠ c := habs x (List.mem_cons_self _ _)
    have hxs : ∀ l ∈ xs, l.categoryId ≠ c := fun l hl => habs l (List.mem_cons_of_mem _ hl)
    rw [addToCart_cons, hc]
    simp [hx, ih hxs]

theorem addToCart_present (tcs : List TicketCategory) (pre post : Cart) (c : String)
    (q0 q : Int) (cat : TicketCategory) (hc : byIdTicketCategory tcs c = some cat)
    (hpre : ∀ l ∈ pre, l.categoryId ≠ c) :
    addToCart tcs (pre ++ { categoryId := c, qty := q0 } :: post) c q =
      some (pre ++ { categoryId := c, qty := min (q0 + q) cat.inventory } :: post) := by
  induction pre with
  | nil => simp [addToCart_cons, hc]
  | cons x xs ih =>
    have hx : x.categoryId ≠ c := hpre x (List.mem_cons_self _ _)
    have hxs : ∀ l ∈ xs, l.categoryId ≠ c := fun l hl => hpre l (List.mem_cons_of_mem _ hl)
    rw [List.cons_append, addToCart_cons, hc]
    simp [hx, ih hxs]

/-- A cart either has no line for `c`, or splits at its first line for `c`. -/
theorem cart_split (cart : Cart) (c : String) :
    (∀ l ∈ cart, l.categoryId ≠ c) ∨
      ∃ pre q0 post, cart = pre ++ { categoryId := c, qty := q0 } :: post ∧
        ∀ l ∈ pre, l.categoryId ≠ c := by
  induction cart with
  | nil => left; simp
  | cons x xs ih =>
    by_cases hx : x.categoryId = c
    · right
      refine ⟨[], x.qty, xs, ?_, by simp⟩
      cases x
      simp_all
    · rcases ih with h | ⟨pre, q0, post, hsplit, hpre⟩
      · left
        intro l hl
        rcases List.mem_cons.1 hl with rfl | hl
        · exact hx
        · exact h l hl
      · right
        refine ⟨x :: pre, q0, post, by simp [hsplit], ?_⟩
        intro l hl
        rcases List.mem_cons.1 hl with rfl | hl
        · exact hx
        · exact hpre l hl

theorem addToCart_inBounds (tcs : List TicketCategory) (cart : Cart) (c : String) (q : Int)
    (cat : TicketCategory) (hc : byIdTicketCategory tcs c = some cat)
    (h1 : 1 ≤ q) (h2 : q ≤ cat.inventory) (hcart : CartInBounds tcs cart) :
    ∃ next, addToCart tcs cart c q = some next ∧ CartInBounds tcs next := by
  rcases cart_split cart c with habs | ⟨pre, q0, post, hsplit, hpre⟩
  · refine ⟨_, addToCart_absent tcs cart c q cat hc habs, ?_⟩
    intro l hl
    rcases List.mem_append.1 hl with hl | hl
    · exact hcart l hl
    · simp only [List.mem_singleton] at hl
      subst hl
      exact ⟨cat, hc, h1, h2⟩
  · subst hsplit
    refine ⟨_, addToCart_present tcs pre post c q0 q cat hc hpre, ?_⟩
    have hq0 : LineInBounds tcs { categoryId := c, qty := q0 } := hcart _ (by simp)
    obtain ⟨cat0, hc0, hlo, _⟩ := hq0
    intro l hl
    rcases List.mem_append.1 hl with hl | hl
    · exact hcart l (by simp [hl])
    · rcases List.mem_cons.1 hl with rfl | hl
      · refine ⟨cat, hc, ?_, min_le_right _ _⟩
        simp only at hlo
        exact le_min (by omega) (by omega)
      · exact hcart l (by simp [hl])

theorem updateQty_inBounds (tcs : List TicketCategory) (cart : Cart) (c : String) (q : Int)
    (cat : TicketCategory) (hc : byIdTicketCategory tcs c = some cat)
    (h1 : 1 ≤ q) (h2 : q ≤ cat.inventory) (hcart : CartInBounds tcs cart) :
    CartInBounds tcs (updateQty cart c q) := by
  intro l hl
  simp only [updateQty, List.mem_map] at hl
  obtain ⟨l0, hl0, rfl⟩ := hl
  by_cases hx : l0.categoryId = c
  · simp only [hx, if_true]
    exact ⟨cat, hc, h1, h2⟩
  · simp only [hx, if_false]
    exact hcart l0 hl0

theorem removeFromCart_inBounds (tcs : List TicketCategory) (cart : Cart) (c : String)
    (hcart : CartInBounds tcs cart) : CartInBounds tcs (removeFromCart cart c) := by
  intro l hl
  exact hcart l (List.mem_of_mem_filter hl)

theorem runOps_inBounds (tcs : List TicketCategory) (ops : List CartOp) :
    ∀ cart, CartInBounds tcs cart → (∀ op ∈ ops, op.ArgInRange tcs) →
      ∃ final, runOps tcs cart ops = some final ∧ CartInBounds tcs final := by
  induction ops with
  | nil => intro cart hcart _; exact ⟨cart, rfl, hcart⟩
  | cons op ops ih =>
    intro cart hcart hops
    have hop := hops op (List.mem_cons_self _ _)
    have hrest : ∀ o ∈ ops, o.ArgInRange tcs := fun o ho => hops o (List.mem_cons_of_mem _ ho)
    have hstep : ∃ next, applyOp tcs cart op = some next ∧ CartInBounds tcs next := by
      cases op with
      | add c q =>
        obtain ⟨cat, hc, h1, h2⟩ := hop
        exact addToCart_inBounds tcs cart c q cat hc h1 h2 hcart
      | setQty c q =>
        obtain ⟨cat, hc, h1, h2⟩ := hop
        exact ⟨_, rfl, updateQty_inBounds tcs cart c q cat hc h1 h2 hcart⟩
      | remove c => exact ⟨_, rfl, removeFromCart_inBounds tcs cart c hcart⟩
    obtain ⟨next, hnext, hb⟩ := hstep
    obtain ⟨final, hfinal, hfb⟩ := ih next hb hrest
    exact ⟨final, by simp [runOps, hnext, hfinal], hfb⟩

theorem updateQty_ids (cart : Cart) (c : String) (q : Int) :
    (updateQty cart c q).map CartLine.categoryId = cart.map CartLine.categoryId := by
  induction cart with
  | nil => rfl
  | cons x xs ih =>
    simp only [updateQty, List.map_cons] at ih ⊢
    rw [ih]
    by_cases hx : x.categoryId = c <;> simp [hx]

theorem updateQty_absent (cart : Cart) (c : String) (q : Int)
    (habs : ∀ l ∈ cart, l.categoryId ≠ c) : updateQty cart c q = cart := by
  induction cart with
  | nil => rfl
  | cons x xs ih =>
    have hx : x.categoryId ≠ c := habs x (List.mem_cons_self _ _)
    have hxs : ∀ l ∈ xs, l.categoryId ≠ c := fun l hl => habs l (List.mem_cons_of_mem _ hl)
    have ih2 := ih hxs
    simp only [updateQty, List.map_cons] at ih2 ⊢
    rw [ih2]
    simp [hx]

theorem addToCart_resolves (tcs : List TicketCategory) (cart next : Cart) (c : String)
    (q : Int) (h : addToCart tcs cart c q = some next) :
    ∃ cat, byIdTicketCategory tcs c = some cat := by
  cases hc : byIdTicketCategory tcs c with
  | none => simp [addToCart, hc] at h
  | some cat => exact ⟨cat, rfl⟩

theorem addToCart_ids_nodup (tcs : List TicketCategory) (cart next : Cart) (c : String)
    (q : Int) (hnd : (cart.map CartLine.categoryId).Nodup)
    (h : addToCart tcs cart c q = some next) : (next.map CartLine.categoryId).Nodup := by
  obtain ⟨cat, hc⟩ := addToCart_resolves tcs cart next c q h
  rcases cart_split cart c with habs | ⟨pre, q0, post, hsplit, hpre⟩
  · rw [addToCart_absent tcs cart c q cat hc habs] at h
    cases h
    rw [List.map_append, List.map_singleton]
    refine List.Nodup.append hnd (List.nodup_singleton _) ?_
    intro x hx hx2
    simp only [List.mem_singleton] at hx2
    subst hx2
    obtain ⟨l, hl, hlc⟩ := List.mem_map.1 hx
    exact habs l hl hlc
  · subst hsplit
    rw [addToCart_present tcs pre post c q0 q cat hc hpre] at h
    cases h
    simpa using hnd

theorem removeFromCart_ids_nodup (cart : Cart) (c : String)
    (hnd : (cart.map CartLine.categoryId).Nodup) :
    ((removeFromCart cart c).map CartLine.categoryId).Nodup :=
  List.Nodup.sublist (List.Sublist.map _ (List.filter_sublist _)) hnd

theorem runOps_ids_nodup (tcs : List TicketCategory) (ops : List CartOp) :
    ∀ cart final, (cart.map CartLine.categoryId).Nodup → runOps tcs cart ops = some final →
      (final.map CartLine.categoryId).Nodup := by
  induction ops with
  | nil =>
    intro cart final hnd h
    simp only [runOps, Option.some.injEq] at h
    subst h
    exact hnd
  | cons op ops ih =>
    intro cart final hnd h
    simp only [runOps] at h
    cases hstep : applyOp tcs cart op with
    | none => simp [hstep] at h
    | some next =>
      rw [hstep] at h
      refine ih next final ?_ h
      cases op with
      | add c q => exact addToCart_ids_nodup tcs cart next c q hnd hstep
      | setQty c q =>
        simp only [applyOp, Option.some.injEq] at hstep
        subst hstep
        rw [updateQty_ids]
        exact hnd
      | remove c =>
        simp only [applyOp, Option.some.injEq] at hstep
        subst hstep
        exact removeFromCart_ids_nodup cart c hnd

theorem cartTotal_fold (tcs : List TicketCategory) (cart : Cart)
    (hres : ∀ it ∈ cart, ∃ cat, byIdTicketCategory tcs it.categoryId = some cat) :
    ∃ totals : List Int, cart.map (lineTotal tcs) = totals.map some ∧
      ∀ s : Int,
        cart.foldlM (fun sum it =>
          (byIdTicketCategory tcs it.categoryId).map (fun cat => sum + it.qty * cat.price)) s
          = some (s + totals.sum) := by
  induction cart with
  | nil => exact ⟨[], rfl, fun s => by simp⟩
  | cons x xs ih =>
    obtain ⟨cat, hcat⟩ := hres x (List.mem_cons_self _ _)
    obtain ⟨totals, hmap, hfold⟩ := ih (fun it hit => hres it (List.mem_cons_of_mem _ hit))
    refine ⟨(x.qty * cat.price) :: totals, ?_, ?_⟩
    · simp [lineTotal, hcat, hmap]
    · intro s
      rw [List.foldlM_cons, hcat]
      simp only [Option.map_some', Option.some_bind, Option.bind_eq_bind]
      rw [hfold, List.sum_cons, add_assoc]

theorem includes_iff (text search : String) :
    includes text search = true ↔ search.data <:+: text.data := by
  unfold includes
  rw [List.any_eq_true, List.infix_iff_prefix_suffix]
  constructor
  · rintro ⟨rest, hrest, hpre⟩
    exact ⟨rest, List.isPrefixOf_iff_prefix.1 hpre, (List.mem_tails _ _).1 hrest⟩
  · rintro ⟨rest, hpre, hsuf⟩
    exact ⟨rest, (List.mem_tails _ _).2 hsuf, List.isPrefixOf_iff_prefix.2 hpre⟩

theorem textOk_iff_textMatches (lower : String → String) (venues : List Venue) (q : String)
    (c : Concert) : textOk lower venues c q = some true ↔ TextMatches lower venues q c := by
  unfold textOk TextMatches
  cases hv : byIdVenue venues c.venueId with
  | none => simp
  | some v => simp [includes_iff]

theorem genreOk_iff (artists : List Artist) (genre : String) (c : Concert) :
    genreOk artists c genre = true ↔ GenreMatches artists genre c := by
  unfold genreOk GenreMatches
  simp only [Bool.or_eq_true, decide_eq_true_eq, List.any_eq_true]
  refine or_congr Iff.rfl ?_
  constructor
  · rintro ⟨li, hli, h⟩
    cases ha : List.find? (fun a => decide (a.id = li.artistId)) artists with
    | none => simp [ha] at h
    | some a =>
      rw [ha] at h
      exact ⟨li, hli, a, ha, by simpa using h⟩
  · rintro ⟨li, hli, a, ha, hg⟩
    exact ⟨li, hli, by rw [ha]; simpa using hg⟩

theorem venueOk_iff (venue : String) (c : Concert) :
    venueOk c venue = true ↔ VenueMatches venue c := by
  simp [venueOk, VenueMatches]

theorem filterThrowing_eq_filter {α : Type} (f : α → Option Bool) (xs : List α)
    (hdef : ∀ x ∈ xs, ∃ b, f x = some b) :
    filterThrowing f xs = some (xs.filter (fun x => f x == some true)) := by
  induction xs with
  | nil => rfl
  | cons x xs ih =>
    obtain ⟨b, hb⟩ := hdef x (List.mem_cons_self _ _)
    have ih2 := ih (fun y hy => hdef y (List.mem_cons_of_mem _ hy))
    simp only [filterThrowing, hb, ih2]
    cases b <;> simp [List.filter_cons, hb]

theorem fromEntries_mem {α : Type} (key : α → String) (xs : List α) (id : String) (x : α)
    (h : fromEntries key xs id = some x) : x ∈ xs := by
  induction xs with
  | nil => simp [fromEntries] at h
  | cons y ys ih =>
    simp only [fromEntries] at h
    cases hys : fromEntries key ys id with
    | some z =>
      rw [hys] at h
      cases h
      exact List.mem_cons_of_mem _ (ih hys)
    | none =>
      rw [hys] at h
      by_cases hk : key y = id
      · simp [hk] at h
        subst h
        exact List.mem_cons_self _ _
      · simp [hk] at h

theorem uiStep_inBounds (tcs : List TicketCategory) (hinv : ∀ t ∈ tcs, 0 ≤ t.inventory)
    (cart next : Cart) (step : UiStep) (hcart : CartInBounds tcs cart)
    (h : uiStep tcs cart step = some next) : CartInBounds tcs next := by
  cases step with
  | add id =>
    simp only [uiStep, addButtonClick] at h
    cases hc : byIdTicketCategory tcs id with
    | none => simp [hc] at h
    | some tc =>
      rw [hc] at h
      by_cases h0 : tc.inventory = 0
      · simp only [h0, if_true, Option.some.injEq] at h
        subst h
        exact hcart
      · simp only [h0, if_false, addToCartDefault] at h
        have hid : tc.id = id := fromEntries_key _ _ _ _ hc
        have hpos : 1 ≤ tc.inventory := by
          have := hinv tc (fromEntries_mem _ _ _ _ hc)
          omega
        obtain ⟨r, hr, hb⟩ :=
          addToCart_inBounds tcs cart tc.id 1 tc (by rw [hid]; exact hc) le_rfl hpos hcart
        rw [hr] at h
        cases h
        exact hb
  | qtyEdit c n =>
    simp only [uiStep] at h
    cases hf : cart.find? (fun it => decide (it.categoryId = c)) with
    | none =>
      rw [hf] at h
      cases h
      exact hcart
    | some it =>
      rw [hf] at h
      obtain ⟨cat, hcat, hlo, hhi⟩ := hcart it (List.mem_of_find?_eq_some hf)
      simp only [qtyOnChange, hcat, Option.some.injEq] at h
      subst h
      refine updateQty_inBounds tcs cart it.categoryId _ cat hcat (le_max_left _ _) ?_ hcart
      exact max_le (by omega) (min_le_left _ _)
  | remove c =>
    simp only [uiStep] at h
    cases hf : cart.find? (fun it => decide (it.categoryId = c)) with
    | none =>
      rw [hf] at h
      cases h
      exact hcart
    | some it =>
      rw [hf] at h
      cases h
      exact removeFromCart_inBounds tcs cart it.categoryId hcart

theorem uiStep_defined (tcs : List TicketCategory) (cart : Cart) (step : UiStep)
    (hcart : CartInBounds tcs cart)
    (hadd : ∀ id, step = .add id → ∃ tc, byIdTicketCategory tcs id = some tc) :
    ∃ next, uiStep tcs cart step = some next := by
  cases step with
  | add id =>
    obtain ⟨tc, hc⟩ := hadd id rfl
    simp only [uiStep, addButtonClick, hc]
    by_cases h0 : tc.inventory = 0
    · exact ⟨cart, by simp [h0]⟩
    · have hid : tc.id = id := fromEntries_key _ _ _ _ hc
      simp only [h0, if_false, addToCartDefault]
      rcases cart_split cart tc.id with habs | ⟨pre, q0, post, hsplit, hpre⟩
      · exact ⟨_, addToCart_absent tcs cart tc.id 1 tc (by rw [hid]; exact hc) habs⟩
      · subst hsplit
        exact ⟨_, addToCart_present tcs pre post tc.id q0 1 tc (by rw [hid]; exact hc) hpre⟩
  | qtyEdit c n =>
    simp only [uiStep]
    cases hf : cart.find? (fun it => decide (it.categoryId = c)) with
    | none => exact ⟨cart, rfl⟩
    | some it =>
      obtain ⟨cat, hcat, _, _⟩ := hcart it (List.mem_of_find?_eq_some hf)
      simp [qtyOnChange, hcat]
  | remove c =>
    simp only [uiStep]
    cases hf : cart.find? (fun it => decide (it.categoryId = c)) with
    | none => exact ⟨cart, rfl⟩
    | some it => exact ⟨_, rfl⟩

theorem runUi_inBounds (tcs : List TicketCategory) (hinv : ∀ t ∈ tcs, 0 ≤ t.inventory)
    (steps : List UiStep) :
    ∀ cart final, CartInBounds tcs cart → runUi tcs cart steps = some final →
      CartInBounds tcs final := by
  induction steps with
  | nil =>
    intro cart final hcart h
    simp only [runUi, Option.some.injEq] at h
    subst h
    exact hcart
  | cons step steps ih =>
    intro cart final hcart h
    simp only [runUi] at h
    cases hstep : uiStep tcs cart step with
    | none => simp [hstep] at h
    | some next =>
      rw [hstep] at h
      exact ih next final (uiStep_inBounds tcs hinv cart next step hcart hstep) h

theorem runUi_defined (tcs : List TicketCategory) (hinv : ∀ t ∈ tcs, 0 ≤ t.inventory)
    (steps : List UiStep) :
    ∀ cart, CartInBounds tcs cart →
      (∀ id, UiStep.add id ∈ steps → ∃ tc, byIdTicketCategory tcs id = some tc) →
      ∃ final, runUi tcs cart steps = some final := by
  induction steps with
  | nil => intro cart _ _; exact ⟨cart, rfl⟩
  | cons step steps ih =>
    intro cart hcart hadd
    obtain ⟨next, hnext⟩ := uiStep_defined tcs cart step hcart
      (fun id hid => hadd id (by rw [hid]; exact List.mem_cons_self _ _))
    obtain ⟨final, hfinal⟩ := ih next (uiStep_inBounds tcs hinv cart next step hcart hnext)
      (fun id hid => hadd id (List.mem_cons_of_mem _ hid))
    exact ⟨final, by simp [runUi, hnext, hfinal]⟩

theorem addToCart_inBounds_of_admissible (tcs : List TicketCategory) (c : String) (q : Int)
    (cart : Cart) (hcart : CartInBounds tcs cart)
    (hadm : (CartOp.add c q).admissible tcs cart = true) :
    ∃ next, addToCart tcs cart c q = some next ∧ CartInBounds tcs next := by
  simp only [CartOp.admissible] at hadm
  cases hc : byIdTicketCategory tcs c with
  | none => simp [hc] at hadm
  | some cat =>
    rw [hc] at hadm
    simp only at hadm
    induction cart with
    | nil =>
      simp only [List.find?_nil, decide_eq_true_eq] at hadm
      refine ⟨[{ categoryId := c, qty := q }], by simp [addToCart_nil, hc], ?_⟩
      intro l hl
      simp only [List.mem_singleton] at hl
      subst hl
      exact ⟨cat, hc, hadm.1, hadm.2⟩
    | cons x xs ih =>
      have hx := hcart x (List.mem_cons_self _ _)
      have hxs : CartInBounds tcs xs := fun l hl => hcart l (List.mem_cons_of_mem _ hl)
      rw [addToCart_cons, hc]
      by_cases hxc : x.categoryId = c
      · simp only [List.find?_cons, hxc, decide_True, decide_eq_true_eq] at hadm
        obtain ⟨cat0, hc0, hlo, hhi⟩ := hx
        rw [hxc, hc] at hc0
        cases hc0
        refine ⟨{ x with qty := min (x.qty + q) cat.inventory } :: xs, by simp [hxc], ?_⟩
        intro l hl
        rcases List.mem_cons.1 hl with rfl | hl
        · exact ⟨cat, by simpa [hxc] using hc, le_min hadm (by omega), min_le_right _ _⟩
        · exact hxs l hl
      · simp only [List.find?_cons, hxc, decide_False] at hadm
        obtain ⟨r, hr, hb⟩ := ih hxs hadm
        refine ⟨x :: r, by simp [hxc, hr], ?_⟩
        intro l hl
        rcases List.mem_cons.1 hl with rfl | hl
        · exact hx
        · exact hb l hl

theorem applyOp_inBounds_of_admissible (tcs : List TicketCategory) (cart : Cart) (op : CartOp)
    (hcart : CartInBounds tcs cart) (hadm : op.admissible tcs cart = true) :
    ∃ next, applyOp tcs cart op = some next ∧ CartInBounds tcs next := by
  cases op with
  | add c q => exact addToCart_inBounds_of_admissible tcs c q cart hcart hadm
  | setQty c q =>
    refine ⟨_, rfl, ?_⟩
    simp only [CartOp.admissible] at hadm
    cases hf : cart.find? (fun it => decide (it.categoryId = c)) with
    | none =>
      have habs : ∀ l ∈ cart, l.categoryId ≠ c := by
        intro l hl
        simpa using List.find?_eq_none.1 hf l hl
      rw [updateQty_absent cart c q habs]
      exact hcart
    | some line =>
      rw [hf] at hadm
      simp only at hadm
      cases hc : byIdTicketCategory tcs c with
      | none => simp [hc] at hadm
      | some cat =>
        rw [hc] at hadm
        simp only [decide_eq_true_eq] at hadm
        exact updateQty_inBounds tcs cart c q cat hc hadm.1 hadm.2 hcart
  | remove c => exact ⟨_, rfl, removeFromCart_inBounds tcs cart c hcart⟩

theorem runOps_inBounds_of_admissible (tcs : List TicketCategory) (ops : List CartOp) :
    ∀ cart, CartInBounds tcs cart → opsAdmissible tcs cart ops = true →
      ∃ final, runOps tcs cart ops = some final ∧ CartInBounds tcs final := by
  induction ops with
  | nil => intro cart hcart _; exact ⟨cart, rfl, hcart⟩
  | cons op ops ih =>
    intro cart hcart hadm
    simp only [opsAdmissible, Bool.and_eq_true] at hadm
    obtain ⟨next, hnext, hb⟩ := applyOp_inBounds_of_admissible tcs cart op hcart hadm.1
    have hrest := hadm.2
    rw [hnext] at hrest
    obtain ⟨final, hfinal, hfb⟩ := ih next hb hrest
    exact ⟨final, by simp [runOps, hnext, hfinal], hfb⟩

/-! ## C1: the quantity bound over sequences of `addToCart` and `updateQty` -/

/-- C1 (as stated, refuted): with arbitrary integer arguments the bound
`1 ≤ qty ≤ inventory` does not hold after every sequence of `addToCart` and
`updateQty` calls.  On the seed table (`tc1` has inventory 25), after
`addToCart("tc1", 1)` the call `updateQty("tc1", 99)` stores 99: `updateQty`
stores its argument as given.  Likewise `updateQty("tc1", 0)` stores 0 and
`addToCart("tc1", -5)` on the line of quantity 1 stores -4. -/
theorem cart_qty_bound_fails_for_arbitrary_args :
    ¬ (∀ (ops : List CartOp) (cart : Cart), (∀ op ∈ ops, op.isAddOrSet = true) →
        runOps seed.ticketCategories [] ops = some cart →
        CartInBounds seed.ticketCategories cart) ∧
    runOps seed.ticketCategories [] [.add "tc1" 1, .setQty "tc1" 99] = some [⟨"tc1", 99⟩] ∧
    runOps seed.ticketCategories [] [.add "tc1" 1, .setQty "tc1" 0] = some [⟨"tc1", 0⟩] ∧
    runOps seed.ticketCategories [] [.add "tc1" 1, .add "tc1" (-5)] = some [⟨"tc1", -4⟩] ∧
    (byIdTicketCategory seed.ticketCategories "tc1").map TicketCategory.inventory =
      some 25 := by
  refine ⟨?_, by decide, by decide, by decide, by decide⟩
  intro h
  have hb := h [.add "tc1" 1, .setQty "tc1" 99] [⟨"tc1", 99⟩] (by decide) (by decide)
    ⟨"tc1", 99⟩ (by simp)
  obtain ⟨cat, hcat, _, hhi⟩ := hb
  have hlook : byIdTicketCategory seed.ticketCategories "tc1" =
      some ⟨"tc1", "c1", "VIP Pit", 169, 25⟩ := by decide
  simp only at hcat
  rw [hlook] at hcat
  cases hcat
  simp at hhi

/-- C1 (amended): starting from the empty cart, a sequence of `addToCart` and
`updateQty` calls (with `removeFromCart` calls anywhere in between) runs to a
cart in which every line satisfies `1 ≤ qty ≤ inventory` of its category,
provided that, at the cart each call is applied to, an `addToCart(c, delta)` on
a category with a line of quantity `q` has `1 ≤ q + delta`, an `addToCart` on
a category without a line passes a quantity in `[1, inventory]`, and an
`updateQty` on a category with a line passes a quantity in `[1, inventory]`. -/
theorem cart_qty_bound_of_admissible_calls (tcs : List TicketCategory) (ops : List CartOp)
    (hadm : opsAdmissible tcs [] ops = true) :
    ∃ cart, runOps tcs [] ops = some cart ∧
      ∀ line ∈ cart, ∃ cat, byIdTicketCategory tcs line.categoryId = some cat ∧
        1 ≤ line.qty ∧ line.qty ≤ cat.inventory :=
  runOps_inBounds_of_admissible tcs ops [] (by intro l hl; simp at hl) hadm

theorem cart_qty_bound_of_admissible_calls_witness :
    ∃ cart, runOps seed.ticketCategories []
        [.add "tc1" 1, .add "tc1" 30, .setQty "tc1" 7, .add "tc1" (-3), .setQty "tc2" 999,
          .add "tc2" 3] = some cart ∧
      ∀ line ∈ cart, ∃ cat,
        byIdTicketCategory seed.ticketCategories line.categoryId = some cat ∧
        1 ≤ line.qty ∧ line.qty ≤ cat.inventory :=
  cart_qty_bound_of_admissible_calls seed.ticketCategories
    [.add "tc1" 1, .add "tc1" 30, .setQty "tc1" 7, .add "tc1" (-3), .setQty "tc2" 999,
      .add "tc2" 3] (by decide)

/-! ## C2: what `addToCart` stores -/

/-- C2 (as stated, refuted): `addToCart` is not the `addLine` of the
specification.  On the seed table, inserting with quantity 30 stores 30 where
the specification clamps to 25, and adding -5 to a line of quantity 1 stores
-4 where the specification fails with a validation error. -/
theorem addToCart_differs_from_addLineSpec :
    addToCart seed.ticketCategories [] "tc1" 30 = some [⟨"tc1", 30⟩] ∧
    addLineSpec seed.ticketCategories [] "tc1" 30 = .ok [⟨"tc1", 25⟩] ∧
    addToCart seed.ticketCategories [⟨"tc1", 1⟩] "tc1" (-5) = some [⟨"tc1", -4⟩] ∧
    addLineSpec seed.ticketCategories [⟨"tc1", 1⟩] "tc1" (-5) = .error .validationError := by
  refine ⟨by decide, rfl, by decide, rfl⟩

/-- C2 (amended): for a category `c` that resolves with inventory `inv`,
`addToCart(c, delta)` never fails.  If the cart has a line for `c`, the first
such line, of quantity `q0`, gets `min(q0 + delta, inv)` (also when that is
below 1) and every other line stays as it is; if the cart has no line for `c`
and `1 ≤ delta ≤ inv`, the line `(c, clamp(delta, 1, inv))`, which is
`(c, delta)`, is appended. -/
theorem addToCart_postcondition (tcs : List TicketCategory) (cart : Cart) (c : String)
    (delta : Int) (cat : TicketCategory) (hc : byIdTicketCategory tcs c = some cat) :
    (∃ next, addToCart tcs cart c delta = some next) ∧
    (∀ pre q0 post, cart = pre ++ { categoryId := c, qty := q0 } :: post →
      (∀ l ∈ pre, l.categoryId ≠ c) →
      addToCart tcs cart c delta =
        some (pre ++ { categoryId := c, qty := min (q0 + delta) cat.inventory } :: post)) ∧
    ((∀ l ∈ cart, l.categoryId ≠ c) → 1 ≤ delta → delta ≤ cat.inventory →
      clamp delta 1 cat.inventory = delta ∧
      addToCart tcs cart c delta =
        some (cart ++ [{ categoryId := c, qty := clamp delta 1 cat.inventory }])) := by
  refine ⟨?_, ?_, ?_⟩
  · rcases cart_split cart c with habs | ⟨pre, q0, post, hsplit, hpre⟩
    · exact ⟨_, addToCart_absent tcs cart c delta cat hc habs⟩
    · subst hsplit
      exact ⟨_, addToCart_present tcs pre post c q0 delta cat hc hpre⟩
  · intro pre q0 post hsplit hpre
    subst hsplit
    exact addToCart_present tcs pre post c q0 delta cat hc hpre
  · intro habs h1 h2
    have hclamp : clamp delta 1 cat.inventory = delta := by
      unfold clamp
      rw [max_eq_right h1, min_eq_right h2]
    exact ⟨hclamp, by rw [hclamp]; exact addToCart_absent tcs cart c delta cat hc habs⟩

theorem addToCart_postcondition_witness :
    addToCart seed.ticketCategories [] "tc1" 1 = some [⟨"tc1", 1⟩] ∧
    addToCart seed.ticketCategories [⟨"tc1", 1⟩] "tc1" 30 = some [⟨"tc1", 25⟩] :=
  ⟨((addToCart_postcondition seed.ticketCategories [] "tc1" 1
      ⟨"tc1", "c1", "VIP Pit", 169, 25⟩ (by decide)).2.2
      (by simp) (by decide) (by decide)).2,
   (addToCart_postcondition seed.ticketCategories [⟨"tc1", 1⟩] "tc1" 30
      ⟨"tc1", "c1", "VIP Pit", 169, 25⟩ (by decide)).2.1 [] 1 [] rfl (by simp)⟩

/-! ## C3: what `updateQty` does with its arguments -/

/-- C3 (as stated, refuted): `updateQty` is not the `setQuantity` of the
specification.  Quantity 0 is stored where the specification fails with a
validation error, quantity 99 is stored where the specification clamps to the
inventory 25, and on a cart without the line `updateQty` returns the cart where
the specification fails with `NotFound`. -/
theorem updateQty_differs_from_setQuantitySpec :
    updateQty [⟨"tc1", 2⟩] "tc1" 0 = [⟨"tc1", 0⟩] ∧
    setQuantitySpec seed.ticketCategories [⟨"tc1", 2⟩] "tc1" 0 = .error .validationError ∧
    updateQty [⟨"tc1", 2⟩] "tc1" 99 = [⟨"tc1", 99⟩] ∧
    setQuantitySpec seed.ticketCategories [⟨"tc1", 2⟩] "tc1" 99 = .ok [⟨"tc1", 25⟩] ∧
    updateQty [⟨"tc2", 2⟩] "tc1" 3 = [⟨"tc2", 2⟩] ∧
    setQuantitySpec seed.ticketCategories [⟨"tc2", 2⟩] "tc1" 3 = .error .notFound := by
  refine ⟨by decide, rfl, by decide, rfl, by decide, rfl⟩

/-- C3 (amended): `updateQty(c, qty)` always returns a cart: position by
position, a line for `c` gets quantity `qty` exactly as passed and any other
line is unchanged, so without a line for `c` the cart is returned as it is.
The clamp is at the call site: for a category of inventory `inv` the Qty input
calls `updateQty(c, max(1, min(inv, n)))`, which keeps the lines' ids, stores
a quantity of at least 1 on the lines for `c`, and stores `min(n, inv)` when
`1 ≤ n` and `1 ≤ inv`. -/
theorem updateQty_contract (tcs : List TicketCategory) (cart : Cart) (c : String)
    (qty n : Int) :
    (∀ (i : Nat) (line : CartLine), cart[i]? = some line →
      (updateQty cart c qty)[i]? =
        some (if line.categoryId = c then { categoryId := c, qty := qty } else line)) ∧
    (updateQty cart c qty).length = cart.length ∧
    ((∀ l ∈ cart, l.categoryId ≠ c) → updateQty cart c qty = cart) ∧
    (∀ cat, byIdTicketCategory tcs c = some cat →
      ∃ next, qtyOnChange tcs cart { categoryId := c, qty := qty } n = some next ∧
        next.map CartLine.categoryId = cart.map CartLine.categoryId ∧
        ∀ l ∈ next, l.categoryId = c →
          1 ≤ l.qty ∧ l.qty = max 1 (min cat.inventory n) ∧
          (1 ≤ n → 1 ≤ cat.inventory → l.qty = min n cat.inventory)) := by
  refine ⟨?_, ?_, ?_, ?_⟩
  · intro i line hi
    simp only [updateQty, List.getElem?_map, hi, Option.map_some']
    by_cases hx : line.categoryId = c
    · simp [hx]
    · simp [hx]
  · simp [updateQty]
  · intro habs
    exact updateQty_absent cart c qty habs
  · intro cat hc
    refine ⟨updateQty cart c (max 1 (min cat.inventory n)), ?_, updateQty_ids cart c _, ?_⟩
    · simp [qtyOnChange, hc]
    · intro l hl hlc
      have hq : l.qty = max 1 (min cat.inventory n) := by
        simp only [updateQty, List.mem_map] at hl
        obtain ⟨l0, _, rfl⟩ := hl
        by_cases hx : l0.categoryId = c
        · simp [hx]
        · simp [hx] at hlc
      refine ⟨by rw [hq]; exact le_max_left _ _, hq, ?_⟩
      intro h1 h2
      rw [hq, max_eq_right (le_min h2 h1), min_comm]

theorem updateQty_contract_witness :
    ∃ next, qtyOnChange seed.ticketCategories [⟨"tc1", 2⟩, ⟨"tc2", 5⟩] ⟨"tc1", 2⟩ 0 =
        some next ∧
      next.map CartLine.categoryId = ["tc1", "tc2"] ∧
      ∀ l ∈ next, l.categoryId = "tc1" →
        1 ≤ l.qty ∧ l.qty = max 1 (min 25 0) ∧ ((1 : Int) ≤ 0 → (1 : Int) ≤ 25 → l.qty = min 0 25) :=
  (updateQty_contract seed.ticketCategories [⟨"tc1", 2⟩, ⟨"tc2", 5⟩] "tc1" 2 0).2.2.2
    ⟨"tc1", "c1", "VIP Pit", 169, 25⟩ (by decide)

/-! ## C7: one line per category -/

/-- C7: starting from the empty cart, after every finite sequence of
`addToCart`, `updateQty` and `removeFromCart` calls with arbitrary arguments
that runs to a cart, no two lines of that cart have the same `categoryId`. -/
theorem cart_one_line_per_category (tcs : List TicketCategory) (ops : List CartOp)
    (cart : Cart) (hrun : runOps tcs [] ops = some cart) :
    cart.Pairwise (fun a b => a.categoryId ≠ b.categoryId) := by
  have h := runOps_ids_nodup tcs ops [] cart List.nodup_nil hrun
  exact (List.pairwise_map (f := CartLine.categoryId) (R := fun a b => a ≠ b)).1 h

theorem cart_one_line_per_category_witness :
    ([⟨"tc1", 6⟩, ⟨"tc2", 0⟩] : Cart).Pairwise (fun a b => a.categoryId ≠ b.categoryId) :=
  cart_one_line_per_category seed.ticketCategories
    [.add "tc1" 1, .add "tc2" 2, .add "tc3" 40, .add "tc1" 5, .setQty "tc2" 0, .remove "tc3"]
    [⟨"tc1", 6⟩, ⟨"tc2", 0⟩] (by decide)

/-! ## C8: what `removeFromCart` leaves -/

/-- C8: `removeFromCart(c)` returns an order-preserving sublist of the cart that
has no line for `c` and holds every other line as often as the cart does; on a
cart without a line for `c` it returns the cart itself.  It is a total
function: no call raises an error. -/
theorem removeFromCart_frame (cart : Cart) (c : String) :
    (removeFromCart cart c).Sublist cart ∧
    (∀ l ∈ removeFromCart cart c, l.categoryId ≠ c) ∧
    (∀ l : CartLine, l.categoryId ≠ c →
      (removeFromCart cart c).count l = cart.count l) ∧
    ((∀ l ∈ cart, l.categoryId ≠ c) → removeFromCart cart c = cart) := by
  refine ⟨List.filter_sublist _, ?_, ?_, ?_⟩
  · intro l hl
    have := (List.mem_filter.1 hl).2
    simpa using this
  · intro l hl
    unfold removeFromCart
    rw [List.count_filter]
    simpa using hl
  · intro habs
    unfold removeFromCart
    rw [List.filter_eq_self]
    intro l hl
    simpa using habs l hl

theorem removeFromCart_frame_witness :
    removeFromCart [⟨"tc1", 1⟩, ⟨"tc2", 2⟩] "tc3" = [⟨"tc1", 1⟩, ⟨"tc2", 2⟩] :=
  (removeFromCart_frame [⟨"tc1", 1⟩, ⟨"tc2", 2⟩] "tc3").2.2.2 (by decide)

/-! ## C6: the cart total -/

/-- C6: for a cart whose category ids all resolve in the ticket-category table,
every line has a line total `qty * price` of its category, and `cartTotal` is
the sum of these line totals; for the empty cart `cartTotal` is 0. -/
theorem cartTotal_eq_sum_lineTotals (tcs : List TicketCategory) (cart : Cart)
    (hres : ∀ it ∈ cart, ∃ cat, byIdTicketCategory tcs it.categoryId = some cat) :
    (∀ it ∈ cart, ∃ cat, byIdTicketCategory tcs it.categoryId = some cat ∧
      lineTotal tcs it = some (it.qty * cat.price)) ∧
    (∃ totals : List Int, cart.map (lineTotal tcs) = totals.map some ∧
      cartTotal tcs cart = some totals.sum) ∧
    cartTotal tcs [] = some 0 := by
  refine ⟨?_, ?_, rfl⟩
  · intro it hit
    obtain ⟨cat, hcat⟩ := hres it hit
    exact ⟨cat, hcat, by simp [lineTotal, hcat]⟩
  · obtain ⟨totals, hmap, hfold⟩ := cartTotal_fold tcs cart hres
    exact ⟨totals, hmap, by simpa [cartTotal] using hfold 0⟩

theorem cartTotal_eq_sum_lineTotals_witness :
    ∃ totals : List Int,
      List.map (lineTotal seed.ticketCategories) [⟨"tc1", 2⟩, ⟨"tc6", 3⟩] = totals.map some ∧
      cartTotal seed.ticketCategories [⟨"tc1", 2⟩, ⟨"tc6", 3⟩] = some totals.sum :=
  (cartTotal_eq_sum_lineTotals seed.ticketCategories [⟨"tc1", 2⟩, ⟨"tc6", 3⟩]
    (by
      intro it hit
      simp only [List.mem_cons, List.mem_singleton, List.not_mem_nil, or_false] at hit
      rcases hit with rfl | rfl
      · exact ⟨⟨"tc1", "c1", "VIP Pit", 169, 25⟩, by decide⟩
      · exact ⟨⟨"tc6", "c3", "Orchestra", 120, 200⟩, by decide⟩)).2.1

/-! ## C4 and C5: the Place Order action -/

/-- C4 (as stated, refuted): on the specification's own example (`tc2` with
inventory 260, cart line `{tc2, qty 2}`) Place Order does not decrease the
inventory by the line quantity: `tc2` still has inventory 260, not 258.  The
only order with the items `tc2 × 2` at unit price 95 is the fixed `o1` of the
orders board, whose total is 230 and not 190. -/
theorem placeOrder_does_not_decrement_inventory :
    ¬ InventoryDecremented checkoutExample (placeOrder checkoutExample) ∧
    (byIdTicketCategory (placeOrder checkoutExample).ticketCategories "tc2").map
      TicketCategory.inventory = some 260 ∧
    AdminBoards.orders.map
      (fun o => (o.id, o.total, (o.items.map (fun it => it.qty * it.unitPrice)).sum)) =
      [("o1", 230, 190), ("o2", 120, 120)] := by
  refine ⟨?_, by decide, by decide⟩
  intro h
  obtain ⟨b, a, hb, ha, hdec⟩ := h ⟨"tc2", 2⟩ (by decide)
  have hlook : byIdTicketCategory seed.ticketCategories "tc2" =
      some ⟨"tc2", "c1", "Floor GA", 95, 260⟩ := by decide
  have hb2 : byIdTicketCategory seed.ticketCategories "tc2" = some b := hb
  have ha2 : byIdTicketCategory seed.ticketCategories "tc2" = some a := ha
  rw [hlook] at hb2 ha2
  cases hb2
  cases ha2
  simp at hdec

/-- C4 (amended): for every non-empty cart whose every line has quantity at most
the current inventory of its category, Place Order leaves the cart empty,
closes the checkout modal and the cart drawer, and leaves the ticket-category
table, inventories included, as it was; no order is built.  The total shown
in the checkout modal for that cart is `cartTotal`, the sum over the lines of
`qty * price` at the current price. -/
theorem placeOrder_on_valid_cart (w : Store) (hne : w.app.cart ≠ [])
    (hfit : ∀ line ∈ w.app.cart, ∃ cat,
      byIdTicketCategory w.ticketCategories line.categoryId = some cat ∧
      line.qty ≤ cat.inventory) :
    (placeOrder w).app.cart = [] ∧ (placeOrder w).app.cart ≠ w.app.cart ∧
    (placeOrder w).app.checkoutOpen = false ∧ (placeOrder w).app.cartOpen = false ∧
    (placeOrder w).ticketCategories = w.ticketCategories ∧
    ∃ totals : List Int, w.app.cart.map (lineTotal w.ticketCategories) = totals.map some ∧
      cartTotal w.ticketCategories w.app.cart = some totals.sum := by
  obtain ⟨totals, hmap, hfold⟩ := cartTotal_fold w.ticketCategories w.app.cart
    (fun it hit => (hfit it hit).imp fun _ h => h.1)
  refine ⟨rfl, fun h => hne (h.symm.trans rfl), rfl, rfl, rfl, totals, hmap, ?_⟩
  simpa [cartTotal] using hfold 0

theorem placeOrder_on_valid_cart_witness :
    (placeOrder checkoutExample).app.cart = [] ∧
    (placeOrder checkoutExample).ticketCategories = seed.ticketCategories ∧
    cartTotal seed.ticketCategories [⟨"tc2", 2⟩] = some 190 := by
  have h := placeOrder_on_valid_cart checkoutExample (by decide)
    (by
      intro line hline
      have hl : line = ⟨"tc2", 2⟩ := by simpa [checkoutExample] using hline
      subst hl
      exact ⟨⟨"tc2", "c1", "Floor GA", 95, 260⟩, by decide, by decide⟩)
  exact ⟨h.1, h.2.2.2.2.1, by decide⟩

/-- C5 (as stated, refuted): on the specification's own example (cart
`{tc2, qty 2}` with the inventory of `tc2` reduced to 1) Place Order does not
leave the cart as it was: the cart is emptied. -/
theorem placeOrder_empties_oversold_cart :
    (∃ line ∈ oversoldExample.app.cart, ∃ cat,
      byIdTicketCategory oversoldExample.ticketCategories line.categoryId = some cat ∧
      cat.inventory < line.qty) ∧
    (placeOrder oversoldExample).app.cart = [] ∧
    (placeOrder oversoldExample).app.cart ≠ oversoldExample.app.cart := by
  refine ⟨⟨⟨"tc2", 2⟩, by decide, ⟨"tc2", "c1", "Floor GA", 95, 1⟩, by decide, by decide⟩,
    by decide, by decide⟩

/-- C5 (amended): Place Order makes no inventory check and has no failure
outcome: for every cart containing a line whose quantity exceeds the current
inventory of its category it leaves the ticket-category table, inventories
included, exactly as it was, and empties the cart, so the cart is not left as
it was. -/
theorem placeOrder_on_oversold_cart (w : Store)
    (hex : ∃ line ∈ w.app.cart, ∃ cat,
      byIdTicketCategory w.ticketCategories line.categoryId = some cat ∧
      cat.inventory < line.qty) :
    (placeOrder w).ticketCategories = w.ticketCategories ∧
    (placeOrder w).app.cart = [] ∧ (placeOrder w).app.cart ≠ w.app.cart := by
  obtain ⟨line, hline, _⟩ := hex
  refine ⟨rfl, rfl, ?_⟩
  intro h
  have hnil : w.app.cart = [] := h.symm.trans rfl
  rw [hnil] at hline
  simp at hline

theorem placeOrder_on_oversold_cart_witness :
    (placeOrder oversoldExample).ticketCategories = oversoldExample.ticketCategories ∧
    (placeOrder oversoldExample).app.cart = [] ∧
    (placeOrder oversoldExample).app.cart ≠ oversoldExample.app.cart :=
  placeOrder_on_oversold_cart oversoldExample
    ⟨⟨"tc2", 2⟩, by decide, ⟨"tc2", "c1", "Floor GA", 95, 1⟩, by decide, by decide⟩

/-! ## C9 and C10: the concert filter and its text predicate -/

/-- C9: for a concert list whose every `venueId` resolves and every query
`(q, genre, venue)`, the filter returns a list, and that list is exactly the
input filtered, in input order, by a test that holds of a concert if and only
if the text predicate, the genre predicate (`genre = "all"`, or some lineup
entry's artist has `genre` in its genre list) and the venue predicate
(`venue = "all"`, or `venueId = venue`) all hold. -/
theorem concerts_filter_membership (lower : String → String) (artists : List Artist)
    (venues : List Venue) (all : List Concert) (q genre venue : String)
    (hres : ∀ c ∈ all, ∃ v, byIdVenue venues c.venueId = some v) :
    ∃ (result : List Concert) (keep : Concert → Bool),
      concerts lower artists venues all q genre venue = some result ∧
      result = all.filter keep ∧ result.Sublist all ∧
      ∀ c, keep c = true ↔
        TextMatches lower venues q c ∧ GenreMatches artists genre c ∧ VenueMatches venue c := by
  refine ⟨_, fun c => filterCallback lower artists venues q genre venue c == some true,
    filterThrowing_eq_filter _ all ?_, rfl, List.filter_sublist _, ?_⟩
  · intro c hc
    obtain ⟨v, hv⟩ := hres c hc
    simp [filterCallback, textOk, hv]
  · intro c
    rw [← textOk_iff_textMatches, ← genreOk_iff, ← venueOk_iff]
    cases ht : textOk lower venues c q with
    | none => simp [filterCallback, ht]
    | some t => simp [filterCallback, ht, and_assoc]

theorem concerts_filter_membership_witness :
    (∃ (result : List Concert) (keep : Concert → Bool),
      concerts asciiLower seed.artists seed.venues seed.concerts "" "g3" "all" = some result ∧
      result = seed.concerts.filter keep ∧ result.Sublist seed.concerts ∧
      ∀ c, keep c = true ↔
        TextMatches asciiLower seed.venues "" c ∧ GenreMatches seed.artists "g3" c ∧
          VenueMatches "all" c) ∧
    (concerts asciiLower seed.artists seed.venues seed.concerts "" "g3" "all").map
      (fun r => r.map Concert.id) = some ["c1", "c2"] ∧
    concerts asciiLower seed.artists seed.venues seed.concerts "" "g5" "all" = some [] :=
  ⟨concerts_filter_membership asciiLower seed.artists seed.venues seed.concerts "" "g3" "all"
    (by
      intro c hc
      simp only [seed.concerts, List.mem_cons, List.mem_singleton, List.not_mem_nil,
        or_false] at hc
      rcases hc with rfl | rfl | rfl
      · exact ⟨⟨"v1", "Harbor Pavilion", "Brooklyn, NY", 8500⟩, by decide⟩
      · exact ⟨⟨"v3", "Skyline Bowl", "Chicago, IL", 12000⟩, by decide⟩
      · exact ⟨⟨"v2", "Cedar Hall", "Boston, MA", 2200⟩, by decide⟩),
   by decide, by decide⟩

/-- C10 (as stated, refuted): the text that is searched is not the title
directly followed by the venue name.  For the seed concert `c1` ("Neon Dunes:
Live at the Harbor" at "Harbor Pavilion") the query "harborharbor" occurs in
the lower-cased title directly followed by the venue name, yet the concert does
not pass the text predicate. -/
theorem textOk_not_plain_concatenation :
    byIdVenue seed.venues "v1" = some ⟨"v1", "Harbor Pavilion", "Brooklyn, NY", 8500⟩ ∧
    (asciiLower "harborharbor").data <:+:
      (asciiLower ("Neon Dunes: Live at the Harbor" ++ "Harbor Pavilion")).data ∧
    textOk asciiLower seed.venues
      { id := "c1", title := "Neon Dunes: Live at the Harbor", venueId := "v1",
        groupId := some "cg1", lineup := [⟨"a1", "r1"⟩, ⟨"a3", "r2"⟩],
        ticketCategoryIds := ["tc1", "tc2", "tc3"] } "harborharbor" = some false := by
  refine ⟨by decide, ?_, by decide⟩
  rw [← includes_iff]
  decide

/-- C10 (amended): for every concert `c` with resolved venue `v` and every query
text `t`, the text predicate is computed, and `c` passes it if and only if
`lowercase(t)` is a substring of `lowercase(c.title + " " + v.name)`, the title
and the venue name joined by one space; when the lower-casing maps the empty
string to itself, the empty text passes every such concert. -/
theorem textOk_iff_substring (lower : String → String) (venues : List Venue) (c : Concert)
    (v : Venue) (t : String) (hv : byIdVenue venues c.venueId = some v) :
    (∃ b, textOk lower venues c t = some b) ∧
    (textOk lower venues c t = some true ↔
      (lower t).data <:+: (lower (c.title ++ " " ++ v.name)).data) ∧
    (lower "" = "" → textOk lower venues c "" = some true) := by
  refine ⟨by simp [textOk, hv], ?_, ?_⟩
  · simp [textOk, hv, includes_iff]
  · intro hl
    simp only [textOk, hv, hl, Option.some.injEq]
    rw [includes_iff]
    exact List.nil_infix

theorem textOk_iff_substring_witness :
    (∃ b, textOk asciiLower seed.venues
      ⟨"c3", "Civic Symphony plays Beethoven 7", "v2", some "cg2", [⟨"a4", "r4"⟩],
        ["tc6", "tc7"]⟩ "7 CEDAR" = some b) ∧
    (textOk asciiLower seed.venues
      ⟨"c3", "Civic Symphony plays Beethoven 7", "v2", some "cg2", [⟨"a4", "r4"⟩],
        ["tc6", "tc7"]⟩ "7 CEDAR" = some true ↔
      (asciiLower "7 CEDAR").data <:+:
        (asciiLower ("Civic Symphony plays Beethoven 7" ++ " " ++ "Cedar Hall")).data) ∧
    (asciiLower "" = "" → textOk asciiLower seed.venues
      ⟨"c3", "Civic Symphony plays Beethoven 7", "v2", some "cg2", [⟨"a4", "r4"⟩],
        ["tc6", "tc7"]⟩ "" = some true) :=
  textOk_iff_substring asciiLower seed.venues
    ⟨"c3", "Civic Symphony plays Beethoven 7", "v2", some "cg2", [⟨"a4", "r4"⟩],
      ["tc6", "tc7"]⟩
    ⟨"v2", "Cedar Hall", "Boston, MA", 2200⟩ "7 CEDAR" (by decide)

/-! ## C11: the filter with the initial query -/

/-- C11: for every concert list in which each concert's `venueId` resolves in
the venue table, the filter with the query text `""`, genre `"all"` and venue
`"all"` (the initial values of `q`, `genre` and `venue`) returns the input
list itself, given that lower-casing maps the empty string to itself. -/
theorem concerts_filter_identity (lower : String → String) (artists : List Artist)
    (venues : List Venue) (all : List Concert) (hlower : lower "" = "")
    (hres : ∀ c ∈ all, ∃ v, byIdVenue venues c.venueId = some v) :
    concerts lower artists venues all "" "all" "all" = some all ∧
    concerts lower artists venues all
      AppState.initial.q AppState.initial.genre AppState.initial.venue = some all := by
  have hmain : concerts lower artists venues all "" "all" "all" = some all := by
    unfold concerts
    rw [filterThrowing_eq_filter]
    · rw [List.filter_eq_self.2]
      intro c hc
      obtain ⟨v, hv⟩ := hres c hc
      have hinc : includes (lower (c.title ++ " " ++ v.name)) "" = true :=
        (includes_iff _ _).2 List.nil_infix
      simp [filterCallback, textOk, hv, hlower, hinc, genreOk, venueOk]
    · intro c hc
      obtain ⟨v, hv⟩ := hres c hc
      simp [filterCallback, textOk, hv]
  exact ⟨hmain, hmain⟩

theorem concerts_filter_identity_witness :
    concerts asciiLower seed.artists seed.venues seed.concerts "" "all" "all" =
      some seed.concerts :=
  (concerts_filter_identity asciiLower seed.artists seed.venues seed.concerts (by decide)
    (by
      intro c hc
      simp only [seed.concerts, List.mem_cons, List.mem_singleton, List.not_mem_nil,
        or_false] at hc
      rcases hc with rfl | rfl | rfl
      · exact ⟨⟨"v1", "Harbor Pavilion", "Brooklyn, NY", 8500⟩, by decide⟩
      · exact ⟨⟨"v3", "Skyline Bowl", "Chicago, IL", 12000⟩, by decide⟩
      · exact ⟨⟨"v2", "Cedar Hall", "Boston, MA", 2200⟩, by decide⟩)).1

/-! ## C12: the quantity bound over the steps the page offers -/

/-- C12: with every inventory of the table a non-negative integer, starting
from the empty cart and taking any finite sequence of the three user steps
- Add (`addToCart(c)` with the default quantity 1, the button disabled when the
inventory is 0), Qty edit on an existing line
(`updateQty(c, max(1, min(inventory, n)))` for an integer `n`) and Remove
(`removeFromCart(c)`) - every line of every cart reached satisfies
`1 ≤ qty ≤ inventory` of its category; and when the ids of the Add steps
resolve in the table, the sequence does run to a cart. -/
theorem ui_cart_qty_bound (tcs : List TicketCategory) (hinv : ∀ t ∈ tcs, 0 ≤ t.inventory)
    (steps : List UiStep) :
    (∀ cart, runUi tcs [] steps = some cart →
      ∀ line ∈ cart, ∃ cat, byIdTicketCategory tcs line.categoryId = some cat ∧
        1 ≤ line.qty ∧ line.qty ≤ cat.inventory) ∧
    ((∀ id, UiStep.add id ∈ steps → ∃ tc, byIdTicketCategory tcs id = some tc) →
      ∃ cart, runUi tcs [] steps = some cart) := by
  have hempty : CartInBounds tcs [] := by intro l hl; simp at hl
  exact ⟨fun cart h => runUi_inBounds tcs hinv steps [] cart hempty h,
    fun hadd => runUi_defined tcs hinv steps [] hempty hadd⟩

theorem ui_cart_qty_bound_witness :
    runUi seed.ticketCategories []
      [.add "tc1", .add "tc1", .qtyEdit "tc1" 400, .add "tc3", .add "tc2", .qtyEdit "tc2" (-3),
        .remove "tc3", .qtyEdit "tc3" 9] = some [⟨"tc1", 25⟩, ⟨"tc2", 1⟩] ∧
    (∃ cat, byIdTicketCategory seed.ticketCategories "tc1" = some cat ∧
      (1 : Int) ≤ 25 ∧ 25 ≤ cat.inventory) ∧
    (∃ cat, byIdTicketCategory seed.ticketCategories "tc2" = some cat ∧
      (1 : Int) ≤ 1 ∧ 1 ≤ cat.inventory) :=
  ⟨by decide,
   (ui_cart_qty_bound seed.ticketCategories (by decide)
    [.add "tc1", .add "tc1", .qtyEdit "tc1" 400, .add "tc3", .add "tc2", .qtyEdit "tc2" (-3),
      .remove "tc3", .qtyEdit "tc3" 9]).1
    [⟨"tc1", 25⟩, ⟨"tc2", 1⟩] (by decide) ⟨"tc1", 25⟩ (by simp),
   (ui_cart_qty_bound seed.ticketCategories (by decide)
    [.add "tc1", .add "tc1", .qtyEdit "tc1" 400, .add "tc3", .add "tc2", .qtyEdit "tc2" (-3),
      .remove "tc3", .qtyEdit "tc3" 9]).1
    [⟨"tc1", 25⟩, ⟨"tc2", 1⟩] (by decide) ⟨"tc2", 1⟩ (by simp)⟩

end ConcertTickets
